import Mathlib

/-!
Verification of the key-type registry and primitive-set construction
protocol of the tink repository, against its design specification.

The repository slice under verification ships only the Dilithium key
template test (`dilithium_key_template_test.cc`) and the EC utility
header; the registry, primitive set, wrapper and key-manager code the
specification describes is not part of the slice.  Those components are
therefore modelled here directly from the specification text, each such
definition carrying a doc comment beginning `Modelled from the spec:`.
Byte strings are lists of naturals (each < 256 where it matters),
machine `uint32` values are naturals reduced mod 2^32 at the encoding
boundary, and fallible operations return `Option` / `Except`.
-/

namespace Tink

/-- Modelled from the spec: the `OutputPrefixType` enumeration (§3,
"Output Prefix Kind"): `RAW`, `TINK`, `LEGACY`, `CRUNCHY`. -/
inductive OutputPrefixType
  | RAW
  | TINK
  | LEGACY
  | CRUNCHY
deriving DecidableEq, Repr

/-- Modelled from the spec: key status (§3, "Key Material Record"):
`enabled`, `disabled`, `destroyed`. -/
inductive KeyStatus
  | enabled
  | disabled
  | destroyed
deriving DecidableEq, Repr

/-- Big-endian encoding of an unsigned 32-bit value as four bytes. -/
def bigEndian32 (n : Nat) : List Nat :=
  [n / 2 ^ 24 % 256, n / 2 ^ 16 % 256, n / 2 ^ 8 % 256, n % 256]

/-- Big-endian decoding of a byte list to a natural number. -/
def beDecode32 (bs : List Nat) : Nat :=
  bs.foldl (fun a b => a * 256 + b) 0

/-- Modelled from the spec: the output framing (§3 and §6; the
`OutputPrefixUtil` code is absent from the slice).  `RAW` prepends
nothing; `TINK`/`LEGACY`/`CRUNCHY` prepend the format tag `0x01`
followed by the big-endian 32-bit `key_id`. -/
def framingBytes (k : OutputPrefixType) (keyId : Nat) : List Nat :=
  match k with
  | .RAW => []
  | _ => 1 :: bigEndian32 keyId

/-- Modelled from the spec: a Key Material Record (§3):
type identifier, numeric key id, status, output framing kind and the
opaque payload bytes. -/
structure KeyMaterialRecord where
  typeId : String
  keyId : Nat
  status : KeyStatus
  prefixKind : OutputPrefixType
  payload : List Nat

/-- Modelled from the spec: an opaque capability instance (§4.1).  Only
the two roles the claims exercise are represented: a raw compute
function (sign/encrypt) and a raw accept predicate (verify/decrypt). -/
structure Primitive where
  sign : List Nat → List Nat
  verify : List Nat → Bool

/-- Modelled from the spec: a Primitive Set Entry (§3): key id, the
precomputed framing bytes, status, and the wrapped primitive. -/
structure PSEntry where
  keyId : Nat
  framing : List Nat
  status : KeyStatus
  primitive : Primitive

/-- Modelled from the spec: a Primitive Set (§3): an ordered sequence
of entries plus an optional distinguished primary entry. -/
structure PrimitiveSet where
  entries : List PSEntry
  primary : Option PSEntry

/-- The entry assembled from a record and its wrapped primitive: the
framing bytes are computed once, at assembly time (§3, §4.3 step 2). -/
def mkEntry (r : KeyMaterialRecord) (p : Primitive) : PSEntry :=
  ⟨r.keyId, framingBytes r.prefixKind r.keyId, r.status, p⟩

/-- Modelled from the spec: assembly step 1/2 (§4.3).  Wrap each record
into an entry; a record whose wrapping fails produces no entry and its
key id is recorded as a warning. -/
def buildEntries (wrap : KeyMaterialRecord → Option Primitive) :
    List KeyMaterialRecord → List PSEntry × List Nat
  | [] => ([], [])
  | r :: rs =>
    let rest := buildEntries wrap rs
    match wrap r with
    | some p => (mkEntry r p :: rest.1, rest.2)
    | none => (rest.1, r.keyId :: rest.2)

/-- Modelled from the spec: assembly step 3 (§4.3): detect two records
computing identical non-empty framing bytes. -/
def hasDupFraming : List KeyMaterialRecord → Bool
  | [] => false
  | r :: rs =>
    (framingBytes r.prefixKind r.keyId != [] &&
      rs.any (fun r2 =>
        framingBytes r2.prefixKind r2.keyId == framingBytes r.prefixKind r.keyId))
    || hasDupFraming rs

/-- Modelled from the spec: the assembly-time error taxonomy (§7). -/
inductive AssemblyError
  | DuplicatePrefixError
  | PrimaryKeyUnavailable
deriving DecidableEq, Repr

/-- Modelled from the spec: the result of assembly (§4.3 step 4, §9):
the set together with warning-level attributes naming the non-primary
records whose construction failed. -/
structure AssemblyResult where
  pset : PrimitiveSet
  warnings : List Nat

/-- Modelled from the spec: Primitive Set assembly (§4.3).  Records
with status other than `enabled` are excluded; two enabled records
with identical non-empty framing abort with `DuplicatePrefixError`;
the designated primary must exist among the enabled records and wrap
successfully, otherwise `PrimaryKeyUnavailable`; wrapping failures of
other records are downgraded to warnings. -/
def assemble (wrap : KeyMaterialRecord → Option Primitive)
    (records : List KeyMaterialRecord) (primaryId : Nat) :
    Except AssemblyError AssemblyResult :=
  if hasDupFraming (records.filter (fun r => r.status == .enabled)) then
    .error .DuplicatePrefixError
  else
    match (records.filter (fun r => r.status == .enabled)).find?
        (fun r => r.keyId == primaryId) with
    | none => .error .PrimaryKeyUnavailable
    | some r =>
      match wrap r with
      | none => .error .PrimaryKeyUnavailable
      | some p =>
        .ok ⟨⟨(buildEntries wrap
                (records.filter (fun r => r.status == .enabled))).1,
              some (mkEntry r p)⟩,
             (buildEntries wrap
                (records.filter (fun r => r.status == .enabled))).2⟩

/-- Modelled from the spec: the compute-role wrapper (§4.4): select the
primary entry, invoke its primitive once, and prepend the primary's
precomputed framing bytes. -/
def wrappedCompute (pset : PrimitiveSet) (msg : List Nat) :
    Option (List Nat) :=
  pset.primary.map (fun e => e.framing ++ e.primitive.sign msg)

/-- Modelled from the spec: the verify-role error taxonomy (§4.4, §7).
A key-specific error constructor is included to express that the
wrapper never reports one. -/
inductive VerifyError
  | NoMatchingKeyError
  | KeySpecificError (keyId : Nat)
deriving DecidableEq, Repr

/-- The candidate entries for an input, in trial order (§4.4): entries
whose non-empty framing bytes lead the input first, then every
RAW-framed entry in set order. -/
def candidates (pset : PrimitiveSet) (input : List Nat) : List PSEntry :=
  pset.entries.filter (fun e => e.framing != [] && e.framing.isPrefixOf input)
    ++ pset.entries.filter (fun e => e.framing == [])

/-- First entry in the list whose primitive accepts the input with that
entry's framing stripped. -/
def firstAccepting (input : List Nat) : List PSEntry → Option PSEntry
  | [] => none
  | e :: es =>
    if e.primitive.verify (input.drop e.framing.length) then some e
    else firstAccepting input es

/-- Modelled from the spec: the verify-role wrapper (§4.4): try the
candidates in order, succeed on the first accepting entry, and report
the single aggregate `NoMatchingKeyError` when all are exhausted. -/
def wrappedVerify (pset : PrimitiveSet) (input : List Nat) :
    Except VerifyError Unit :=
  match firstAccepting input (candidates pset input) with
  | some _ => .ok ()
  | none => .error .NoMatchingKeyError

/-! ## Key Type Registry -/

/-- Modelled from the spec: registry error taxonomy (§4.2, §7). -/
inductive RegError
  | AlreadyRegistered
  | UnknownTypeError
deriving DecidableEq, Repr

/-- Modelled from the spec: a Capability Implementation (§4.1), carrying
a declared identity used for the registry's sameness test together
with its format-validation and key-generation operations. -/
structure Implementation where
  ident : String
  validateFormat : List Nat → Bool
  generate : List Nat → Option (List Nat)

/-- Modelled from the spec: implementation sameness "by declared
identity, not object identity" (§4.2). -/
def implSame (a b : Implementation) : Bool :=
  a.ident == b.ident

/-- Modelled from the spec: the Key Type Registry (§4.2), a mapping
from key-type identifier to its Capability Implementation. -/
structure Registry where
  table : List (String × Implementation)

/-- Modelled from the spec: `lookup(type_id)` (§4.2). -/
def Registry.lookup (reg : Registry) (tid : String) :
    Except RegError Implementation :=
  match reg.table.find? (fun p => p.1 == tid) with
  | some p => .ok p.2
  | none => .error .UnknownTypeError

/-- Modelled from the spec: `register(type_id, implementation)` (§4.2).
Returns the registry to use afterwards together with an optional
error: registering over a different implementation fails with
`AlreadyRegistered` and leaves the table unchanged; re-registering the
same implementation is a no-op. -/
def Registry.register (reg : Registry) (tid : String)
    (impl : Implementation) : Registry × Option RegError :=
  match reg.table.find? (fun p => p.1 == tid) with
  | none => (⟨(tid, impl) :: reg.table⟩, none)
  | some p =>
    if implSame p.2 impl then (reg, none)
    else (reg, some .AlreadyRegistered)

/-! ## Dilithium key templates and key managers -/

/-- Modelled from the spec: a Key Template (§3): immutable
`(type identifier, serialized format parameters, output-prefix kind)`
triple. -/
structure KeyTemplate where
  type_url : String
  value : List Nat
  output_prefix_type : OutputPrefixType
deriving DecidableEq, Repr

/-- Two templates are interchangeable if all three fields are equal
(§3, "Key Template"): value equality, not identity. -/
def templatesInterchangeable (t1 t2 : KeyTemplate) : Bool :=
  t1.type_url == t2.type_url && t1.value == t2.value &&
    t1.output_prefix_type == t2.output_prefix_type

/-- The Dilithium2 secret-key byte length
(`PQCLEAN_DILITHIUM2_AVX2_CRYPTO_SECRETKEYBYTES`). -/
def dilithium2SecretKeyBytes : Nat := 2528

/-- The Dilithium3 secret-key byte length
(`PQCLEAN_DILITHIUM3_AVX2_CRYPTO_SECRETKEYBYTES`). -/
def dilithium3SecretKeyBytes : Nat := 4000

/-- The Dilithium5 secret-key byte length
(`PQCLEAN_DILITHIUM5_AVX2_CRYPTO_SECRETKEYBYTES`). -/
def dilithium5SecretKeyBytes : Nat := 4864

/-- Modelled from the spec: the `DilithiumKeyFormat` message, carrying
the requested key size (the format parameters the Dilithium capability
implementation interprets). -/
structure DilithiumKeyFormat where
  key_size : Nat
deriving DecidableEq, Repr

/-- Modelled from the spec: the serialization of a `DilithiumKeyFormat`
into the opaque template value bytes.  The spec leaves the encoding to
the excluded serialization layer; an injective four-byte encoding of
the key size stands in for it. -/
def serializeDilithiumKeyFormat (f : DilithiumKeyFormat) : List Nat :=
  bigEndian32 f.key_size

/-- Modelled from the spec: parsing opaque bytes back into a
`DilithiumKeyFormat`, the inverse of the stand-in serialization. -/
def parseDilithiumKeyFormat (bs : List Nat) : Option DilithiumKeyFormat :=
  match bs with
  | [a, b, c, d] => some ⟨beDecode32 [a, b, c, d]⟩
  | _ => none

/-- The Dilithium private-key type URL checked by
`CheckDilithiumInitialization` in `dilithium_key_template_test.cc`. -/
def dilithiumTypeUrl : String :=
  "type.googleapis.com/google.crypto.tink.DilithiumPrivateKey"

/-- Modelled from the spec: `DilithiumSignKeyManager::ValidateKeyFormat`
(the key-manager code is absent from the slice): rejects unsupported
key sizes (§4.1), accepting exactly the Dilithium2/3/5 secret-key byte
lengths the test exercises. -/
def dilithiumValidateKeyFormat (f : DilithiumKeyFormat) : Bool :=
  f.key_size == dilithium2SecretKeyBytes ||
    f.key_size == dilithium3SecretKeyBytes ||
    f.key_size == dilithium5SecretKeyBytes

/-- Modelled from the spec: a Dilithium private key as produced by key
generation; the key material itself is opaque (entropy is external), so
a deterministic payload of the requested length stands in for it. -/
structure DilithiumPrivateKey where
  key_value : List Nat
deriving DecidableEq, Repr

/-- Modelled from the spec: `NewKey` of the combined private key manager
(`MakePrivateKeyManager` in the test): validates the format and then
generates key material of the requested size; generation never fails
for a valid format (§4.1, §8). -/
def dilithiumNewKey (f : DilithiumKeyFormat) : Option DilithiumPrivateKey :=
  if dilithiumValidateKeyFormat f then
    some ⟨List.replicate f.key_size 0⟩
  else
    none

/-- Modelled from the spec: the Dilithium key template constructor (the
`dilithium_key_template.cc` code is absent from the slice): type URL of
the Dilithium private key, serialized format with the requested key
size, `TINK` output-prefix type. -/
def NewDilithiumKeyTemplate (keySize : Nat) : KeyTemplate :=
  ⟨dilithiumTypeUrl, serializeDilithiumKeyFormat ⟨keySize⟩, .TINK⟩

/-- Modelled from the spec: `Dilithium2KeyTemplate()`; the accessor
caches and returns one stored instance, which a shallow embedding
renders as a single definition. -/
def Dilithium2KeyTemplate : KeyTemplate :=
  NewDilithiumKeyTemplate dilithium2SecretKeyBytes

/-- Modelled from the spec: `Dilithium3KeyTemplate()`. -/
def Dilithium3KeyTemplate : KeyTemplate :=
  NewDilithiumKeyTemplate dilithium3SecretKeyBytes

/-- Modelled from the spec: `Dilithium5KeyTemplate()`. -/
def Dilithium5KeyTemplate : KeyTemplate :=
  NewDilithiumKeyTemplate dilithium5SecretKeyBytes

/-! ## Concrete fixtures used by witnesses and counterexamples -/

/-- A trivial primitive: identity signer, accept-everything verifier. -/
def onePrim : Primitive := ⟨fun m => m, fun _ => true⟩

/-- A primitive whose verifier rejects every input. -/
def nayPrim : Primitive := ⟨fun m => m, fun _ => false⟩

/-- A primitive accepting exactly the inputs whose first byte is 9. -/
def pickyPrim : Primitive := ⟨fun m => 9 :: m, fun s => s.headD 0 == 9⟩

/-- A wrapping function that always succeeds with `onePrim`. -/
def wrapAll : KeyMaterialRecord → Option Primitive := fun _ => some onePrim

/-- A concrete enabled `TINK` record with key id 7. -/
def oneRec : KeyMaterialRecord := ⟨"sig/demo", 7, .enabled, .TINK, []⟩

/-- The entry assembled from `oneRec` and `onePrim`. -/
def oneEntry : PSEntry := ⟨7, framingBytes .TINK 7, .enabled, onePrim⟩

/-- A concrete one-entry primitive set whose primary is `oneEntry`. -/
def onePset : PrimitiveSet := ⟨[oneEntry], some oneEntry⟩

/-- A concrete implementation with declared identity `"implA"`. -/
def implA : Implementation := ⟨"implA", fun _ => true, fun _ => some []⟩

/-- A concrete implementation with declared identity `"implB"`. -/
def implB : Implementation := ⟨"implB", fun _ => true, fun _ => some []⟩

/-- A registry binding `"sig/demo"` to `implA`. -/
def regA : Registry := ⟨[("sig/demo", implA)]⟩

/-- A verify-only set of two RAW-framed entries: the first rejects
everything, the second accepts exactly inputs starting with byte 9. -/
def rawPsetXY : PrimitiveSet :=
  ⟨[⟨1, [], .enabled, nayPrim⟩, ⟨2, [], .enabled, pickyPrim⟩], none⟩

end Tink

namespace Tink

/-! ## Arithmetic and list lemmas -/

/-- Big-endian 32-bit encode/decode round-trip, reducing mod `2^32`. -/
theorem beDecode32_bigEndian32 (n : Nat) :
    beDecode32 (bigEndian32 n) = n % 2 ^ 32 := by
  simp [beDecode32, bigEndian32]
  omega

/-- Every byte of the non-RAW framing is below 256. -/
theorem bigEndian32_lt (n : Nat) : ∀ b ∈ bigEndian32 n, b < 256 := by
  intro b hb
  simp [bigEndian32] at hb
  rcases hb with h | h | h | h <;> omega

/-! ## C1: output framing -/

/-- C1: Every output produced by the compute wrapper under a
non-RAW prefix kind begins with exactly 5 framing bytes — byte 0 the
format tag `0x01`, bytes 1–4 the entry's `key_id` big-endian — followed
by the raw primitive output; under `RAW` no framing bytes are
prepended.  The framing is the (pure) function `framingBytes` of
`(prefix_kind, key_id)` alone, precomputed in the entry. -/
theorem wrappedCompute_framing
    (pset : PrimitiveSet) (e : PSEntry) (k : OutputPrefixType)
    (kid : Nat) (M out : List Nat)
    (hp : pset.primary = some e)
    (he : e.framing = framingBytes k kid)
    (hout : wrappedCompute pset M = some out) :
    (k = .RAW → out = e.primitive.sign M) ∧
    (k ≠ .RAW →
      out.take 5 = 1 :: bigEndian32 kid ∧
      out.drop 5 = e.primitive.sign M ∧
      beDecode32 ((out.take 5).drop 1) = kid % 2 ^ 32 ∧
      ∀ b ∈ out.take 5, b < 256) := by
  have hout' : out = e.framing ++ e.primitive.sign M := by
    rw [wrappedCompute, hp] at hout
    simpa using hout.symm
  constructor
  · intro hk
    subst hk
    simp [framingBytes] at he
    simp [hout', he]
  · intro hk
    have hf : e.framing = 1 :: bigEndian32 kid := by
      cases k <;> simp_all [framingBytes]
    subst hout'
    rw [hf]
    refine ⟨rfl, rfl, ?_, ?_⟩
    · show beDecode32 (bigEndian32 kid) = kid % 2 ^ 32
      exact beDecode32_bigEndian32 kid
    · show ∀ b ∈ 1 :: bigEndian32 kid, b < 256
      intro b hb
      rcases List.mem_cons.mp hb with h | h
      · omega
      · exact bigEndian32_lt kid b h

/-- Closed instantiation of `wrappedCompute_framing` on `onePset` with
`key_id = 7` and message `[9, 9]`. -/
theorem wrappedCompute_framing_witness :
    (OutputPrefixType.TINK = OutputPrefixType.RAW →
      ([1, 0, 0, 0, 7, 9, 9] : List Nat) = onePrim.sign [9, 9]) ∧
    (OutputPrefixType.TINK ≠ OutputPrefixType.RAW →
      ([1, 0, 0, 0, 7, 9, 9] : List Nat).take 5 = 1 :: bigEndian32 7 ∧
      ([1, 0, 0, 0, 7, 9, 9] : List Nat).drop 5 = onePrim.sign [9, 9] ∧
      beDecode32 ((([1, 0, 0, 0, 7, 9, 9] : List Nat).take 5).drop 1) =
        7 % 2 ^ 32 ∧
      ∀ b ∈ ([1, 0, 0, 0, 7, 9, 9] : List Nat).take 5, b < 256) :=
  wrappedCompute_framing onePset oneEntry .TINK 7 [9, 9]
    [1, 0, 0, 0, 7, 9, 9] rfl rfl rfl

/-! ## C8: Dilithium key sizes -/

/-- C8: For each supported Dilithium key size (the Dilithium2,
Dilithium3 and Dilithium5 secret-key byte lengths), format validation
by the Dilithium sign key manager succeeds, and new-key generation
through the combined private key manager succeeds for the same
format. -/
theorem dilithium_keySizes_ok (ks : Nat)
    (hks : ks = dilithium2SecretKeyBytes ∨ ks = dilithium3SecretKeyBytes ∨
      ks = dilithium5SecretKeyBytes) :
    dilithiumValidateKeyFormat ⟨ks⟩ = true ∧
      (dilithiumNewKey ⟨ks⟩).isSome = true := by
  rcases hks with h | h | h <;> subst h <;> exact ⟨rfl, rfl⟩

/-- Closed instantiation of `dilithium_keySizes_ok` at the Dilithium2
secret-key byte length. -/
theorem dilithium_keySizes_ok_witness :
    dilithiumValidateKeyFormat ⟨dilithium2SecretKeyBytes⟩ = true ∧
      (dilithiumNewKey ⟨dilithium2SecretKeyBytes⟩).isSome = true :=
  dilithium_keySizes_ok dilithium2SecretKeyBytes (Or.inl rfl)

/-! ## C9: template interchangeability -/

/-- C9: Two key templates are interchangeable exactly when their
type identifier, format parameters and prefix kind are all equal
(value equality); in particular the cached `Dilithium2KeyTemplate`
instance is interchangeable with itself. -/
theorem templatesInterchangeable_iff_fields (t1 t2 : KeyTemplate) :
    (templatesInterchangeable t1 t2 = true ↔
      (t1.type_url = t2.type_url ∧ t1.value = t2.value ∧
        t1.output_prefix_type = t2.output_prefix_type)) ∧
    templatesInterchangeable Dilithium2KeyTemplate Dilithium2KeyTemplate
      = true := by
  constructor
  · simp [templatesInterchangeable, and_assoc]
  · rfl

/-! ## C10: Dilithium template fields -/

/-- C10: Every Dilithium key template returned by the template
accessors carries the `DilithiumPrivateKey` type URL, the `TINK`
output-prefix type, and a serialized value parsing back to the
`DilithiumKeyFormat` with the corresponding key size. -/
theorem dilithium_templates_wellFormed :
    (Dilithium2KeyTemplate.type_url = dilithiumTypeUrl ∧
      Dilithium2KeyTemplate.output_prefix_type = .TINK ∧
      parseDilithiumKeyFormat Dilithium2KeyTemplate.value =
        some ⟨dilithium2SecretKeyBytes⟩) ∧
    (Dilithium3KeyTemplate.type_url = dilithiumTypeUrl ∧
      Dilithium3KeyTemplate.output_prefix_type = .TINK ∧
      parseDilithiumKeyFormat Dilithium3KeyTemplate.value =
        some ⟨dilithium3SecretKeyBytes⟩) ∧
    (Dilithium5KeyTemplate.type_url = dilithiumTypeUrl ∧
      Dilithium5KeyTemplate.output_prefix_type = .TINK ∧
      parseDilithiumKeyFormat Dilithium5KeyTemplate.value =
        some ⟨dilithium5SecretKeyBytes⟩) := by
  exact ⟨⟨rfl, rfl, rfl⟩, ⟨rfl, rfl, rfl⟩, ⟨rfl, rfl, rfl⟩⟩

/-! ## Lemmas about assembly -/

/-- A record that wraps successfully contributes its entry. -/
theorem mem_buildEntries {wrap : KeyMaterialRecord → Option Primitive}
    {l : List KeyMaterialRecord} {r : KeyMaterialRecord} {p : Primitive}
    (hr : r ∈ l) (hw : wrap r = some p) :
    mkEntry r p ∈ (buildEntries wrap l).1 := by
  induction l with
  | nil => cases hr
  | cons a l ih =>
    rcases List.mem_cons.mp hr with h | h
    · subst h
      simp [buildEntries, hw]
    · have := ih h
      cases ha : wrap a <;> simp [buildEntries, ha, this]

/-- Every entry of the built list comes from a record in the input
list that wrapped successfully. -/
theorem buildEntries_mem_src {wrap : KeyMaterialRecord → Option Primitive}
    {l : List KeyMaterialRecord} {e : PSEntry}
    (he : e ∈ (buildEntries wrap l).1) :
    ∃ r p, r ∈ l ∧ wrap r = some p ∧ e = mkEntry r p := by
  induction l with
  | nil => cases he
  | cons a l ih =>
    cases ha : wrap a with
    | some p =>
      rw [buildEntries, ha] at he
      rcases List.mem_cons.mp he with h | h
      · exact ⟨a, p, List.mem_cons_self a l, ha, h⟩
      · rcases ih h with ⟨r, q, hr, hw, hq⟩
        exact ⟨r, q, List.mem_cons_of_mem a hr, hw, hq⟩
    | none =>
      rw [buildEntries, ha] at he
      rcases ih he with ⟨r, q, hr, hw, hq⟩
      exact ⟨r, q, List.mem_cons_of_mem a hr, hw, hq⟩

/-- A record whose wrapping fails is recorded in the warnings. -/
theorem keyId_mem_buildEntries_warnings
    {wrap : KeyMaterialRecord → Option Primitive}
    {l : List KeyMaterialRecord} {r : KeyMaterialRecord}
    (hr : r ∈ l) (hw : wrap r = none) :
    r.keyId ∈ (buildEntries wrap l).2 := by
  induction l with
  | nil => cases hr
  | cons a l ih =>
    rcases List.mem_cons.mp hr with h | h
    · subst h
      simp [buildEntries, hw]
    · have := ih h
      cases ha : wrap a <;> simp [buildEntries, ha, this]

/-- Duplicate non-empty framing anywhere in the list is detected. -/
theorem hasDupFraming_of_split (xs ys zs : List KeyMaterialRecord)
    (r1 r2 : KeyMaterialRecord)
    (hne : framingBytes r1.prefixKind r1.keyId ≠ [])
    (heq : framingBytes r1.prefixKind r1.keyId
      = framingBytes r2.prefixKind r2.keyId) :
    hasDupFraming (xs ++ (r1 :: (ys ++ r2 :: zs))) = true := by
  induction xs with
  | nil =>
    have h2 : r2 ∈ ys ++ r2 :: zs :=
      List.mem_append_right ys (List.mem_cons_self r2 zs)
    have hany : (ys ++ r2 :: zs).any (fun q =>
        framingBytes q.prefixKind q.keyId
          == framingBytes r1.prefixKind r1.keyId) = true := by
      rw [List.any_eq_true]
      exact ⟨r2, h2, by simp [heq]⟩
    simp only [List.nil_append, hasDupFraming]
    simp [hany, hne]
  | cons a xs ih =>
    simp only [List.cons_append, hasDupFraming, List.append_eq]
    rw [ih]
    simp

/-! ## C7: only enabled entries -/

/-- C7: Every entry of a successfully assembled primitive set has
status `enabled` and arises from an enabled record of the input;
disabled or destroyed records never appear; and the primary entry has
status `enabled`. -/
theorem assembled_entries_enabled
    (wrap : KeyMaterialRecord → Option Primitive)
    (records : List KeyMaterialRecord) (K : Nat) (res : AssemblyResult)
    (hok : assemble wrap records K = .ok res) :
    (∀ e ∈ res.pset.entries, e.status = .enabled) ∧
    (∀ e, res.pset.primary = some e → e.status = .enabled) ∧
    (∀ e ∈ res.pset.entries, ∃ r p, r ∈ records ∧ r.status = .enabled ∧
      wrap r = some p ∧ e = mkEntry r p) := by
  unfold assemble at hok
  set enabledRecs := records.filter (fun r => r.status == .enabled)
    with hen
  split at hok
  · simp at hok
  · split at hok
    · simp at hok
    · rename_i r0 hfind
      split at hok
      · simp at hok
      · rename_i p0 hw0
        rw [Except.ok.injEq] at hok
        subst hok
        have hstatus : ∀ q ∈ enabledRecs, q.status = KeyStatus.enabled := by
          intro q hq
          have := (List.mem_filter.mp hq).2
          simpa using this
        refine ⟨?_, ?_, ?_⟩
        · intro e he
          rcases buildEntries_mem_src he with ⟨r, p, hr, hw, hq⟩
          subst hq
          exact hstatus r hr
        · intro e he
          rw [Option.some.injEq] at he
          subst he
          exact hstatus r0 (List.mem_of_find?_eq_some hfind)
        · intro e he
          rcases buildEntries_mem_src he with ⟨r, p, hr, hw, hq⟩
          exact ⟨r, p, List.mem_of_mem_filter hr, hstatus r hr, hw, hq⟩

/-- Closed instantiation of `assembled_entries_enabled` on the
one-record assembly. -/
theorem assembled_entries_enabled_witness :
    (∀ e ∈ (AssemblyResult.pset ⟨⟨[oneEntry], some oneEntry⟩, []⟩).entries,
      e.status = .enabled) ∧
    (∀ e, (AssemblyResult.pset ⟨⟨[oneEntry], some oneEntry⟩, []⟩).primary
      = some e → e.status = .enabled) ∧
    (∀ e ∈ (AssemblyResult.pset ⟨⟨[oneEntry], some oneEntry⟩, []⟩).entries,
      ∃ r p, r ∈ [oneRec] ∧ r.status = .enabled ∧
        wrapAll r = some p ∧ e = mkEntry r p) :=
  assembled_entries_enabled wrapAll [oneRec] 7
    ⟨⟨[oneEntry], some oneEntry⟩, []⟩ rfl

/-! ## C4: duplicate prefixes abort assembly -/

/-- C4: Whenever two enabled records compute identical non-empty
framing bytes, assembly fails with `DuplicatePrefixError` — never a
silent overwrite of one entry by the other. -/
theorem assemble_duplicate_framing
    (wrap : KeyMaterialRecord → Option Primitive)
    (records : List KeyMaterialRecord) (K : Nat)
    (r1 r2 : KeyMaterialRecord) (xs ys zs : List KeyMaterialRecord)
    (hsplit : records.filter (fun r => r.status == .enabled)
      = xs ++ (r1 :: (ys ++ r2 :: zs)))
    (hne : framingBytes r1.prefixKind r1.keyId ≠ [])
    (heq : framingBytes r1.prefixKind r1.keyId
      = framingBytes r2.prefixKind r2.keyId) :
    assemble wrap records K = .error .DuplicatePrefixError := by
  have hdup : hasDupFraming
      (records.filter (fun r => r.status == .enabled)) = true := by
    rw [hsplit]
    exact hasDupFraming_of_split xs ys zs r1 r2 hne heq
  unfold assemble
  simp [hdup]

/-- Closed instantiation of `assemble_duplicate_framing`: two enabled
`TINK` records with key id 7. -/
theorem assemble_duplicate_framing_witness :
    assemble wrapAll [oneRec, oneRec] 7 = .error .DuplicatePrefixError :=
  assemble_duplicate_framing wrapAll [oneRec, oneRec] 7 oneRec oneRec
    [] [] [] rfl (by decide) rfl

/-! ## C5: primary availability -/

/-- The duplicate-prefix check precedes the primary check: with a
duplicated prefix and a missing primary, assembly reports
`DuplicatePrefixError`, so "fails with `PrimaryKeyUnavailable` iff the
primary is missing, not enabled, or fails to wrap" is false as an
unconditional biconditional. -/
theorem assemble_primaryKeyUnavailable_cex :
    ¬(assemble wrapAll [oneRec, oneRec] 2 = .error .PrimaryKeyUnavailable ↔
      ∀ r, ([oneRec, oneRec].filter (fun r => r.status == .enabled)).find?
        (fun r => r.keyId == 2) = some r → wrapAll r = none) := by
  intro h
  have h2 := h.mpr ?_
  · have hD : assemble wrapAll [oneRec, oneRec] 2
        = Except.error AssemblyError.DuplicatePrefixError := rfl
    rw [h2] at hD
    simp at hD
  · intro r hr
    have hn : ([oneRec, oneRec].filter
        (fun r => r.status == .enabled)).find? (fun r => r.keyId == 2)
        = (none : Option KeyMaterialRecord) := rfl
    rw [hn] at hr
    exact Option.noConfusion hr

/-- C5 (amended): Provided the duplicate-prefix check passes and
key ids are unique within the keyset, assembly fails with
`PrimaryKeyUnavailable` iff the designated primary record is missing
from the enabled records (absent or not enabled) or fails to wrap; a
wrapping failure of a non-primary record never aborts assembly — its
key id is reported in the warnings and no entry of the resulting set
carries it. -/
theorem assemble_primaryKeyUnavailable
    (wrap : KeyMaterialRecord → Option Primitive)
    (records : List KeyMaterialRecord) (K : Nat)
    (hnodup : hasDupFraming
      (records.filter (fun r => r.status == .enabled)) = false)
    (hids : (records.map (fun r => r.keyId)).Nodup) :
    (assemble wrap records K = .error .PrimaryKeyUnavailable ↔
      ∀ r, (records.filter (fun r => r.status == .enabled)).find?
        (fun r => r.keyId == K) = some r → wrap r = none) ∧
    (∀ res r, assemble wrap records K = .ok res →
      r ∈ records.filter (fun r => r.status == .enabled) →
      wrap r = none →
      r.keyId ∈ res.warnings ∧
        ∀ e ∈ res.pset.entries, e.keyId ≠ r.keyId) := by
  constructor
  · unfold assemble
    rw [if_neg (by simp [hnodup])]
    cases hfind : (records.filter (fun r => r.status == .enabled)).find?
        (fun r => r.keyId == K) with
    | none => simp
    | some r0 =>
      cases hw : wrap r0 with
      | none => simp [hw]
      | some p => simp [hw]
  · intro res r hok hr hw
    unfold assemble at hok
    rw [if_neg (by simp [hnodup])] at hok
    split at hok
    · simp at hok
    · rename_i r0 hfind
      split at hok
      · simp at hok
      · rename_i p0 hw0
        rw [Except.ok.injEq] at hok
        subst hok
        refine ⟨keyId_mem_buildEntries_warnings hr hw, ?_⟩
        intro e he heq
        rcases buildEntries_mem_src he with ⟨r', p', hr', hw', hq⟩
        have hek : e.keyId = r'.keyId := by
          subst hq
          rfl
        have hids' : ((records.filter
            (fun r => r.status == .enabled)).map
              (fun r => r.keyId)).Nodup :=
          hids.sublist (List.Sublist.map _ (List.filter_sublist records))
        have : r' = r :=
          List.inj_on_of_nodup_map hids' hr' hr (by rw [← hek, heq])
        subst this
        rw [hw] at hw'
        exact Option.noConfusion hw'

/-- Closed instantiation of `assemble_primaryKeyUnavailable` on a
one-record keyset with a missing primary key id. -/
theorem assemble_primaryKeyUnavailable_witness :
    (assemble wrapAll [oneRec] 2 = .error .PrimaryKeyUnavailable ↔
      ∀ r, ([oneRec].filter (fun r => r.status == .enabled)).find?
        (fun r => r.keyId == 2) = some r → wrapAll r = none) ∧
    (∀ res r, assemble wrapAll [oneRec] 2 = .ok res →
      r ∈ [oneRec].filter (fun r => r.status == .enabled) →
      wrapAll r = none →
      r.keyId ∈ res.warnings ∧
        ∀ e ∈ res.pset.entries, e.keyId ≠ r.keyId) :=
  assemble_primaryKeyUnavailable wrapAll [oneRec] 2 (by decide) (by decide)

/-! ## C6: registry registration -/

/-- C6: Registering the same `(type_id, implementation)` pair twice
is a no-op — the registry, and hence `lookup`, is unchanged by the
second registration; registering a different implementation under an
already-bound `type_id` fails with `AlreadyRegistered` and leaves the
registry, and the originally bound implementation, unchanged. -/
theorem registry_register_semantics
    (reg : Registry) (tid : String) (impl i0 : Implementation) :
    ((reg.register tid impl).1.register tid impl).1
      = (reg.register tid impl).1 ∧
    ((reg.register tid impl).1.register tid impl).1.lookup tid
      = (reg.register tid impl).1.lookup tid ∧
    (reg.lookup tid = .ok i0 → implSame i0 impl = false →
      reg.register tid impl = (reg, some .AlreadyRegistered) ∧
      reg.lookup tid = .ok i0) := by
  cases hfind : reg.table.find? (fun p => p.1 == tid) with
  | none =>
    have h1 : reg.register tid impl = (⟨(tid, impl) :: reg.table⟩, none) := by
      unfold Registry.register
      rw [hfind]
    have hfind2 : ((tid, impl) :: reg.table).find? (fun p => p.1 == tid)
        = some (tid, impl) :=
      List.find?_cons_of_pos _ (by simp)
    have h2 : (Registry.mk ((tid, impl) :: reg.table)).register tid impl
        = (⟨(tid, impl) :: reg.table⟩, none) := by
      unfold Registry.register
      simp [hfind2, implSame]
    refine ⟨?_, ?_, ?_⟩
    · rw [h1, h2]
    · rw [h1, h2]
    · intro hlook hdiff
      unfold Registry.lookup at hlook
      rw [hfind] at hlook
      simp at hlook
  | some q =>
    have hlook0 : reg.lookup tid = .ok q.2 := by
      unfold Registry.lookup
      rw [hfind]
    cases hsame : implSame q.2 impl with
    | true =>
      have h1 : reg.register tid impl = (reg, none) := by
        unfold Registry.register
        rw [hfind]
        simp [hsame]
      refine ⟨?_, ?_, ?_⟩
      · rw [h1, h1]
      · rw [h1, h1]
      · intro hlook hdiff
        rw [hlook0] at hlook
        rw [Except.ok.injEq] at hlook
        subst hlook
        rw [hsame] at hdiff
        simp at hdiff
    | false =>
      have h1 : reg.register tid impl = (reg, some .AlreadyRegistered) := by
        unfold Registry.register
        rw [hfind]
        simp [hsame]
      refine ⟨?_, ?_, ?_⟩
      · rw [h1, h1]
      · rw [h1, h1]
      · intro hlook hdiff
        exact ⟨h1, hlook⟩

/-- Closed instantiation of `registry_register_semantics`: registering
`implB` over the bound `implA` on `regA`. -/
theorem registry_register_semantics_witness :
    ((regA.register "sig/demo" implB).1.register "sig/demo" implB).1
      = (regA.register "sig/demo" implB).1 ∧
    ((regA.register "sig/demo" implB).1.register "sig/demo" implB).1.lookup
        "sig/demo"
      = (regA.register "sig/demo" implB).1.lookup "sig/demo" ∧
    (regA.lookup "sig/demo" = .ok implA → implSame implA implB = false →
      regA.register "sig/demo" implB = (regA, some .AlreadyRegistered) ∧
      regA.lookup "sig/demo" = .ok implA) :=
  registry_register_semantics regA "sig/demo" implB implA

/-! ## C3: verify-role dispatch -/

/-- `firstAccepting` succeeds exactly when some listed entry's
primitive accepts the input with that entry's framing stripped. -/
theorem firstAccepting_isSome_iff (input : List Nat) (l : List PSEntry) :
    (firstAccepting input l).isSome = true ↔
      ∃ e ∈ l, e.primitive.verify (input.drop e.framing.length) = true := by
  induction l with
  | nil => simp [firstAccepting]
  | cons a l ih =>
    by_cases hv : a.primitive.verify (input.drop a.framing.length) = true
    · have hfa : firstAccepting input (a :: l) = some a := by
        simp only [firstAccepting]
        rw [if_pos hv]
      rw [hfa]
      constructor
      · intro _
        exact ⟨a, List.mem_cons_self a l, hv⟩
      · intro _
        rfl
    · have hfa : firstAccepting input (a :: l) = firstAccepting input l := by
        simp only [firstAccepting]
        rw [if_neg hv]
      rw [hfa, ih]
      constructor
      · rintro ⟨e, he, hacc⟩
        exact ⟨e, List.mem_cons_of_mem a he, hacc⟩
      · rintro ⟨e, he, hacc⟩
        rcases List.mem_cons.mp he with heq | he'
        · subst heq
          exact absurd hacc hv
        · exact ⟨e, he', hacc⟩

/-- C3: The verify wrapper succeeds exactly when some candidate —
an entry whose non-empty framing leads the input, or, as a fallback,
any RAW-framed entry in set order — accepts the input; when every
candidate fails it returns the single aggregate `NoMatchingKeyError`,
and it never returns a key-specific error. -/
theorem wrappedVerify_semantics (pset : PrimitiveSet) (input : List Nat) :
    (wrappedVerify pset input = .ok () ↔
      ∃ e ∈ candidates pset input,
        e.primitive.verify (input.drop e.framing.length) = true) ∧
    ((∀ e ∈ candidates pset input,
        e.primitive.verify (input.drop e.framing.length) = false) →
      wrappedVerify pset input = .error .NoMatchingKeyError) ∧
    (∀ kid, wrappedVerify pset input ≠ .error (.KeySpecificError kid)) := by
  cases hfa : firstAccepting input (candidates pset input) with
  | none =>
    have hv : wrappedVerify pset input = .error .NoMatchingKeyError := by
      unfold wrappedVerify
      rw [hfa]
    have hnone : ¬∃ e ∈ candidates pset input,
        e.primitive.verify (input.drop e.framing.length) = true := by
      intro hex
      have := (firstAccepting_isSome_iff input (candidates pset input)).mpr hex
      rw [hfa] at this
      simp at this
    refine ⟨?_, fun _ => hv, ?_⟩
    · rw [hv]
      constructor
      · intro h
        exact absurd h (by simp)
      · intro h
        exact absurd h hnone
    · intro kid h
      rw [hv] at h
      simp at h
  | some e0 =>
    have hv : wrappedVerify pset input = .ok () := by
      unfold wrappedVerify
      rw [hfa]
    have hsome : ∃ e ∈ candidates pset input,
        e.primitive.verify (input.drop e.framing.length) = true := by
      refine (firstAccepting_isSome_iff input (candidates pset input)).mp ?_
      rw [hfa]
      rfl
    refine ⟨iff_of_true hv hsome, ?_, ?_⟩
    · intro hall
      exfalso
      rcases hsome with ⟨e, he, hacc⟩
      rw [hall e he] at hacc
      exact Bool.noConfusion hacc
    · intro kid h
      rw [hv] at h
      exact Except.noConfusion h

/-- Closed instantiation of `wrappedVerify_semantics` on the RAW-only
two-entry set and an input only its second entry accepts. -/
theorem wrappedVerify_semantics_witness :
    (wrappedVerify rawPsetXY [9] = .ok () ↔
      ∃ e ∈ candidates rawPsetXY [9],
        e.primitive.verify (([9] : List Nat).drop e.framing.length)
          = true) ∧
    ((∀ e ∈ candidates rawPsetXY [9],
        e.primitive.verify (([9] : List Nat).drop e.framing.length)
          = false) →
      wrappedVerify rawPsetXY [9] = .error .NoMatchingKeyError) ∧
    (∀ kid, wrappedVerify rawPsetXY [9]
      ≠ .error (.KeySpecificError kid)) :=
  wrappedVerify_semantics rawPsetXY [9]

/-! ## C2: TINK round-trip -/

/-- C2: For a set assembled with a `TINK` primary of key id `K`
whose primitive accepts its own signatures, compute prepends exactly
the primary's 5-byte framing (tag `0x01` and big-endian `K`) to the
single raw primary signature, and verify accepts the computed
output. -/
theorem tink_roundtrip
    (wrap : KeyMaterialRecord → Option Primitive)
    (records : List KeyMaterialRecord) (K : Nat)
    (res : AssemblyResult) (r : KeyMaterialRecord) (p : Primitive)
    (M : List Nat)
    (hok : assemble wrap records K = .ok res)
    (hfind : (records.filter (fun q => q.status == .enabled)).find?
      (fun q => q.keyId == K) = some r)
    (hkind : r.prefixKind = .TINK)
    (hw : wrap r = some p)
    (hrt : p.verify (p.sign M) = true) :
    wrappedCompute res.pset M
      = some (framingBytes .TINK K ++ p.sign M) ∧
    (framingBytes .TINK K ++ p.sign M).take 5 = 1 :: bigEndian32 K ∧
    wrappedVerify res.pset (framingBytes .TINK K ++ p.sign M)
      = .ok () := by
  have hkid : r.keyId = K := by
    have := List.find?_some hfind
    simpa using this
  unfold assemble at hok
  split at hok
  · simp at hok
  · split at hok
    · simp at hok
    · rename_i r0 hfind0
      have hrr : r0 = r := Option.some.inj (hfind0.symm.trans hfind)
      subst hrr
      rw [hw] at hok
      rw [Except.ok.injEq] at hok
      subst hok
      have hframe : (mkEntry r0 p).framing = framingBytes .TINK K := by
        simp [mkEntry, hkind, hkid]
      refine ⟨?_, ?_, ?_⟩
      · simp [wrappedCompute, mkEntry, hkind, hkid]
      · rfl
      · have hmem : mkEntry r0 p ∈ (buildEntries wrap
            (records.filter (fun q => q.status == .enabled))).1 :=
          mem_buildEntries (List.mem_of_find?_eq_some hfind) hw
        have h1 : framingBytes .TINK K ≠ [] := by
          simp [framingBytes]
        have h2 : (framingBytes .TINK K).isPrefixOf
            (framingBytes .TINK K ++ p.sign M) = true := by
          rw [ List.isPrefixOf_iff_prefix]
          exact List.prefix_append _ _
        have hcand : mkEntry r0 p ∈ candidates
            ⟨(buildEntries wrap
                (records.filter (fun q => q.status == .enabled))).1,
              some (mkEntry r0 p)⟩
            (framingBytes .TINK K ++ p.sign M) := by
          apply List.mem_append_left
          apply List.mem_filter.mpr
          refine ⟨hmem, ?_⟩
          simp [hframe, h1, h2]
        have hdropl : (framingBytes .TINK K ++ p.sign M).drop
            (framingBytes .TINK K).length = p.sign M :=
          List.drop_left _ _
        have hacc : (mkEntry r0 p).primitive.verify
            ((framingBytes .TINK K ++ p.sign M).drop
              (mkEntry r0 p).framing.length) = true := by
          rw [hframe, hdropl]
          simpa [mkEntry] using hrt
        have hex : ∃ e ∈ candidates
            ⟨(buildEntries wrap
                (records.filter (fun q => q.status == .enabled))).1,
              some (mkEntry r0 p)⟩
            (framingBytes .TINK K ++ p.sign M),
            e.primitive.verify ((framingBytes .TINK K ++ p.sign M).drop
              e.framing.length) = true :=
          ⟨mkEntry r0 p, hcand, hacc⟩
        have hs := (firstAccepting_isSome_iff
          (framingBytes .TINK K ++ p.sign M) _).mpr hex
        unfold wrappedVerify
        cases hfa : firstAccepting (framingBytes .TINK K ++ p.sign M)
            (candidates
              ⟨(buildEntries wrap
                  (records.filter (fun q => q.status == .enabled))).1,
                some (mkEntry r0 p)⟩
              (framingBytes .TINK K ++ p.sign M)) with
        | none =>
          rw [hfa] at hs
          simp at hs
        | some e1 =>
          rfl

/-- Closed instantiation of `tink_roundtrip` on the one-record `TINK`
assembly with key id 7 and message `[9, 9]`. -/
theorem tink_roundtrip_witness :
    wrappedCompute
        (AssemblyResult.pset ⟨⟨[oneEntry], some oneEntry⟩, []⟩) [9, 9]
      = some (framingBytes .TINK 7 ++ onePrim.sign [9, 9]) ∧
    (framingBytes .TINK 7 ++ onePrim.sign [9, 9]).take 5
      = 1 :: bigEndian32 7 ∧
    wrappedVerify
        (AssemblyResult.pset ⟨⟨[oneEntry], some oneEntry⟩, []⟩)
        (framingBytes .TINK 7 ++ onePrim.sign [9, 9]) = .ok () :=
  tink_roundtrip wrapAll [oneRec] 7 ⟨⟨[oneEntry], some oneEntry⟩, []⟩
    oneRec onePrim [9, 9] rfl rfl rfl rfl rfl

end Tink
